import Mathlib

/-!
Shallow embedding of `comparevocabs.py`: a tool comparing WordPiece-style
subword vocabularies.  Python strings are `String`, files are lists of lines,
`set(...)` is `List.toFinset`, `Counter` is a count function `String → Nat`,
and fallible operations (division by zero, `random.sample` with an oversized
request, argument-parsing failures) return `Option` / explicit exit codes.
The external collaborator `basic_tokenize` (imported from `berttokenizer`)
is an abstract parameter `tok : String → List String`.
-/

/-- ASCII fragment of Python's `str.isspace` character class:
space, tab, newline, carriage return, vertical tab, form feed. -/
def isPySpace (c : Char) : Bool :=
  c = ' ' || c = '\t' || c = '\n' || c = '\r' || c = Char.ofNat 11 || c = Char.ofNat 12

/-- Python `s.isspace()`: true iff `s` is nonempty and all characters are
whitespace (the empty string is NOT "space"). -/
def pyIsSpace (s : String) : Bool :=
  !s.data.isEmpty && s.data.all isPySpace

/-- Python `s.rstrip('\n')`: remove every trailing newline character. -/
def pyRstripNewline (s : String) : String :=
  ((s.data.reverse.dropWhile (fun c => c = '\n')).reverse).asString

/-- Python `s.rstrip()`: remove all trailing whitespace characters. -/
def pyRstrip (s : String) : String :=
  ((s.data.reverse.dropWhile isPySpace).reverse).asString

/-- `BERT_SPECIAL = set(['[PAD]', '[UNK]', '[CLS]', '[SEP]', '[MASK]'])`. -/
def BERT_SPECIAL : List String :=
  ["[PAD]", "[UNK]", "[CLS]", "[SEP]", "[MASK]"]

/-- Membership in the fixed reserved special-token set. -/
def inBertSpecial (v : String) : Bool :=
  BERT_SPECIAL.contains v

/-- Python `[0-9]` character class. -/
def isAsciiDigit (c : Char) : Bool :=
  '0' ≤ c && c ≤ '9'

/-- After the literal `[unused`, the regex `UNUSED_RE` requires one or more
digits followed by `]` at the end of the string; `$` in Python also matches
just before a single trailing newline. -/
def unusedTail (cs : List Char) : Bool :=
  !(cs.takeWhile isAsciiDigit).isEmpty &&
    (cs.dropWhile isAsciiDigit = [']'] || cs.dropWhile isAsciiDigit = [']', '\n'])

/-- `UNUSED_RE.match(v)`: the placeholder-token pattern `^\[unused[0-9]+\]$`. -/
def unusedMatch (s : String) : Bool :=
  match s.data with
  | '[' :: 'u' :: 'n' :: 'u' :: 's' :: 'e' :: 'd' :: rest => unusedTail rest
  | _ => false

/-- A token is ordinary when it is neither special nor a placeholder. -/
def ordinaryTok (v : String) : Bool :=
  !inBertSpecial v && !unusedMatch v

/-- The three accumulator lists of `filter_special`. -/
structure FilterResult where
  filtered : List String
  special : List String
  unused : List String
  deriving Repr, DecidableEq

/-- The classification loop of `filter_special`: `if v in BERT_SPECIAL`,
`elif UNUSED_RE.match(v)`, `else` append to `filtered`. -/
def filter_special_full : List String → FilterResult
  | [] => ⟨[], [], []⟩
  | v :: rest =>
    let r := filter_special_full rest
    if inBertSpecial v then ⟨r.filtered, v :: r.special, r.unused⟩
    else if unusedMatch v then ⟨r.filtered, r.special, v :: r.unused⟩
    else ⟨v :: r.filtered, r.special, r.unused⟩

/-- `filter_special` returns only the `filtered` (ordinary) list. -/
def filter_special (vocab : List String) : List String :=
  (filter_special_full vocab).filtered

/-- Result of `load_vocab`: the retained tokens, the skipped blank lines
(line number and stripped content) and the retained-but-warned lines that
contain interior whitespace. -/
structure LoadResult where
  vocab : List String
  skipped : List (Nat × String)
  warned : List (Nat × String)
  deriving Repr, DecidableEq

/-- The line loop of `load_vocab`, carrying the 1-based line number:
strip trailing newlines; skip (and record) blank or all-whitespace lines;
record a diagnostic for lines containing whitespace but keep them. -/
def load_vocab_aux : Nat → List String → LoadResult
  | _, [] => ⟨[], [], []⟩
  | ln, l :: rest =>
    let s := pyRstripNewline l
    let r := load_vocab_aux (ln + 1) rest
    if s = "" || pyIsSpace s then ⟨r.vocab, (ln, s) :: r.skipped, r.warned⟩
    else if s.data.any isPySpace then ⟨s :: r.vocab, r.skipped, (ln, s) :: r.warned⟩
    else ⟨s :: r.vocab, r.skipped, r.warned⟩

/-- `load_vocab` over a file given as its list of lines (`enumerate(f, start=1)`). -/
def load_vocab_full (lines : List String) : LoadResult :=
  load_vocab_aux 1 lines

/-- The vocabulary list returned by `load_vocab`. -/
def load_vocab (lines : List String) : List String :=
  (load_vocab_full lines).vocab

/-- `max_examples = 10` in `compare`. -/
def max_examples : Nat := 10

/-- `random.sample(population, k)`: modelled with an explicit shuffled copy of
the population (the random source); returns its first `k` elements, `none`
(ValueError) when `k` exceeds the population size. -/
def pySample (shuffled : List String) (k : Nat) : Option (List String) :=
  if k ≤ shuffled.length then some (shuffled.take k) else none

/-- `max_sample(population, k) = sample(population, min(len(population), k))`. -/
def max_sample (shuffled : List String) (k : Nat) : Option (List String) :=
  pySample shuffled (min shuffled.length k)

/-- The numbers printed by the overlap-summary line of `compare`. -/
structure CompareStats where
  size1 : Nat
  size2 : Nat
  overlap : Nat
  cov1 : ℚ
  cov2 : ℚ
  deriving Repr, DecidableEq

/-- The overlap-summary computation of `compare`: `v1 = set(vocab1)`,
`v2 = set(vocab2)`, then `len(v1&v2)/len(v1)` and `len(v1&v2)/len(v2)`.
`none` models the ZeroDivisionError raised when either set is empty. -/
def compareStats (vocab1 vocab2 : List String) : Option CompareStats :=
  let v1 := vocab1.toFinset
  let v2 := vocab2.toFinset
  if v1.card = 0 then none
  else if v2.card = 0 then none
  else some ⟨v1.card, v2.card, (v1 ∩ v2).card,
    ((v1 ∩ v2).card : ℚ) / (v1.card : ℚ), ((v1 ∩ v2).card : ℚ) / (v2.card : ℚ)⟩

/-- The emission test of the ranked loop: token on this side, not on the
other, side counter still below `max_examples`. -/
def emitFlag (mine other : Finset String) (t : String) (c : Nat) : Bool :=
  decide (t ∈ mine) && !decide (t ∈ other) && decide (c < max_examples)

/-- The ranked-mode loop of `compare` over the frequency-sorted items
(`enumerate(..., start=1)` rank `i`, per-side counters `c1`, `c2`):
each side emits matching tokens with their rank; the loop breaks once both
counters have reached `max_examples`.  Returns the two emission lists. -/
def rankedLoop (v1 v2 : Finset String) :
    List (String × Nat) → Nat → Nat → Nat → List (String × Nat) × List (String × Nat)
  | [], _, _, _ => ([], [])
  | (t, _) :: rest, i, c1, c2 =>
    let e1 := emitFlag v1 v2 t c1
    let e2 := emitFlag v2 v1 t c2
    let c1n := if e1 then c1 + 1 else c1
    let c2n := if e2 then c2 + 1 else c2
    let tail :=
      if max_examples ≤ c1n && max_examples ≤ c2n then
        (([] : List (String × Nat)), ([] : List (String × Nat)))
      else rankedLoop v1 v2 rest (i + 1) c1n c2n
    (if e1 then (t, i) :: tail.1 else tail.1,
     if e2 then (t, i) :: tail.2 else tail.2)

/-- Stable insertion of an item into a count-descending list: the item goes
before the first entry whose count is not larger, so earlier items precede
ties, as Python's stable `sorted(..., key=lambda i: -i[1])` does. -/
def insertByCount (a : String × Nat) : List (String × Nat) → List (String × Nat)
  | [] => [a]
  | b :: l => if a.2 < b.2 then b :: insertByCount a l else a :: b :: l

/-- `sorted(token_counts.items(), key=lambda i: -i[1])`: stable sort by
descending count. -/
def sortByCountDesc (l : List (String × Nat)) : List (String × Nat) :=
  l.foldr insertByCount []

/-- The ranked-mode difference report of `compare`, given the frequency
table as an association list in insertion order. -/
def rankedDiff (counts : List (String × Nat)) (vocab1 vocab2 : List String) :
    List (String × Nat) × List (String × Nat) :=
  rankedLoop vocab1.toFinset vocab2.toFinset (sortByCountDesc counts) 1 0 0

/-- The token guard of `basictoken_counts`: `if t and not t.isspace()`. -/
def keptTok (t : String) : Bool :=
  !(t = "") && !pyIsSpace t

/-- `counts[t] += 1` on a `Counter` modelled as a count function. -/
def counterInc (c : String → Nat) (t : String) : String → Nat :=
  fun s => if s = t then c s + 1 else c s

/-- The inner loop of `basictoken_counts`: add every kept token of one line. -/
def addCounts (c : String → Nat) (ts : List String) : String → Nat :=
  ts.foldl (fun c t => if keptTok t then counterInc c t else c) c

/-- `basictoken_counts(fn)`: per-line `l.rstrip()`, basic-tokenize, count
kept tokens; the tokenizer is the abstract collaborator `tok`. -/
def basictoken_counts (tok : String → List String) (lines : List String) :
    String → Nat :=
  lines.foldl (fun c l => addCounts c (tok (pyRstrip l))) (fun _ => 0)

/-- The kept-token stream of the reference text, in reading order. -/
def keptTokens (tok : String → List String) (lines : List String) : List String :=
  (lines.map (fun l => (tok (pyRstrip l)).filter keptTok)).flatten

/-- The key list of `OrderedDict([(p, load_vocab(p)) for p in args.vocab])`:
distinct paths in first-occurrence order (a repeated path overwrites the
value but keeps its original position). -/
def odKeys : List String → List String
  | [] => []
  | p :: rest => p :: (odKeys rest).filter (fun q => q ≠ p)

/-- `itertools.combinations(keys, 2)`: ordered pair list in generation order. -/
def combinations2 {α : Type} : List α → List (α × α)
  | [] => []
  | x :: xs => xs.map (fun y => (x, y)) ++ combinations2 xs

/-- The vocabulary pairs actually compared by `main`. -/
def mainPairs (paths : List String) : List (String × String) :=
  combinations2 (odKeys paths)

/-- The filtered vocabulary `main` builds for a path, with the file system
given as a map from path to file lines. -/
def mainVocab (fs : String → List String) (p : String) : List String :=
  filter_special (load_vocab (fs p))

/-- The process exit code of running the tool on `paths`: `2` when argparse
rejects an empty `vocab` list (`nargs='+'` is required), `1` from `main`'s
own check when fewer than two paths are given, `1` when a pairwise
comparison raises (uncaught ZeroDivisionError), `0` otherwise. -/
def mainExit (fs : String → List String) (paths : List String) : Nat :=
  if paths.length = 0 then 2
  else if paths.length < 2 then 1
  else if (mainPairs paths).all
      (fun pr => (compareStats (mainVocab fs pr.1) (mainVocab fs pr.2)).isSome)
  then 0 else 1

/-! ## Properties of the special-token filter -/

theorem special_not_unused (v : String) (h : inBertSpecial v = true) :
    unusedMatch v = false := by
  have hm : v ∈ BERT_SPECIAL := List.elem_iff.mp h
  simp only [BERT_SPECIAL, List.mem_cons, List.not_mem_nil, or_false] at hm
  rcases hm with hm | hm | hm | hm | hm <;> subst hm <;> rfl

theorem filter_special_full_eq (vocab : List String) :
    filter_special_full vocab =
      ⟨vocab.filter ordinaryTok, vocab.filter inBertSpecial,
       vocab.filter (fun v => !inBertSpecial v && unusedMatch v)⟩ := by
  induction vocab with
  | nil => rfl
  | cons v rest ih =>
    by_cases hs : inBertSpecial v = true
    · simp [filter_special_full, ih, List.filter_cons, hs, ordinaryTok]
    · by_cases hu : unusedMatch v = true <;>
        simp [filter_special_full, ih, List.filter_cons, hs, hu, ordinaryTok]

theorem unused_filter_eq (vocab : List String) :
    vocab.filter (fun v => !inBertSpecial v && unusedMatch v)
      = vocab.filter unusedMatch := by
  apply List.filter_congr
  intro x _
  by_cases hs : inBertSpecial x = true
  · simp [hs, special_not_unused x hs]
  · simp at hs
    simp [hs]

theorem filter_special_length (vocab : List String) :
    (filter_special_full vocab).special.length
      + (filter_special_full vocab).unused.length
      + (filter_special_full vocab).filtered.length = vocab.length := by
  induction vocab with
  | nil => rfl
  | cons v rest ih =>
    by_cases hs : inBertSpecial v = true <;> by_cases hu : unusedMatch v = true <;>
      simp [filter_special_full, hs, hu] <;> omega

/-- C5: `filter_special` partitions a vocabulary into special entries
(members of the fixed reserved set), placeholder entries (matching the
bracketed-number pattern) and ordinary entries; the three subsets are
disjoint, their sizes sum to the size of the vocabulary, every entry lands
in exactly one of them, and only the ordinary subset is returned. -/
theorem filter_special_partition (vocab : List String) :
    (filter_special_full vocab).special.length
        + (filter_special_full vocab).unused.length
        + (filter_special_full vocab).filtered.length = vocab.length ∧
    (filter_special_full vocab).special = vocab.filter inBertSpecial ∧
    (filter_special_full vocab).unused = vocab.filter unusedMatch ∧
    (filter_special_full vocab).filtered = vocab.filter ordinaryTok ∧
    filter_special vocab = (filter_special_full vocab).filtered ∧
    ∀ v ∈ vocab,
      (inBertSpecial v = true ∧ unusedMatch v = false ∧ ordinaryTok v = false) ∨
      (inBertSpecial v = false ∧ unusedMatch v = true ∧ ordinaryTok v = false) ∨
      (inBertSpecial v = false ∧ unusedMatch v = false ∧ ordinaryTok v = true) := by
  refine ⟨filter_special_length vocab, ?_, ?_, ?_, rfl, ?_⟩
  · rw [filter_special_full_eq]
  · rw [filter_special_full_eq]
    exact unused_filter_eq vocab
  · rw [filter_special_full_eq]
  · intro v _
    by_cases hs : inBertSpecial v = true
    · exact Or.inl ⟨hs, special_not_unused v hs, by simp [ordinaryTok, hs]⟩
    · by_cases hu : unusedMatch v = true
      · refine Or.inr (Or.inl ⟨?_, hu, by simp [ordinaryTok, hu]⟩)
        simpa using hs
      · refine Or.inr (Or.inr ⟨?_, ?_, ?_⟩)
        · simpa using hs
        · simpa using hu
        · simp at hs hu
          simp [ordinaryTok, hs, hu]

/-- Witness for C5 at a concrete vocabulary entry. -/
theorem filter_special_partition_witness :
    (inBertSpecial "[PAD]" = true ∧ unusedMatch "[PAD]" = false
        ∧ ordinaryTok "[PAD]" = false) ∨
      (inBertSpecial "[PAD]" = false ∧ unusedMatch "[PAD]" = true
        ∧ ordinaryTok "[PAD]" = false) ∨
      (inBertSpecial "[PAD]" = false ∧ unusedMatch "[PAD]" = false
        ∧ ordinaryTok "[PAD]" = true) :=
  (filter_special_partition ["[PAD]", "[unused0]", "a"]).2.2.2.2.2 "[PAD]"
    (by decide)

/-- C9: the ordinary-token list returned by `filter_special` is a sublist of
the input (order preserved), equals the input filtered to ordinary tokens,
and retains every duplicate occurrence of each ordinary token. -/
theorem filter_special_subsequence (vocab : List String) :
    (filter_special vocab).Sublist vocab ∧
    filter_special vocab = vocab.filter ordinaryTok ∧
    ∀ t, ordinaryTok t = true →
      (filter_special vocab).count t = vocab.count t := by
  have he : filter_special vocab = vocab.filter ordinaryTok := by
    unfold filter_special
    rw [filter_special_full_eq]
  refine ⟨he ▸ List.filter_sublist vocab, he, ?_⟩
  intro t ht
  rw [he, List.count_filter ht]

/-- Witness for C9: the duplicate ordinary token survives with multiplicity. -/
theorem filter_special_subsequence_witness :
    (filter_special ["a", "[PAD]", "a"]).count "a"
      = (["a", "[PAD]", "a"] : List String).count "a" :=
  (filter_special_subsequence ["a", "[PAD]", "a"]).2.2 "a" (by decide)

/-! ## Properties of the vocabulary loader -/

theorem load_vocab_aux_vocab (lines : List String) :
    ∀ ln, (load_vocab_aux ln lines).vocab =
      (lines.map pyRstripNewline).filter
        (fun t => !(t = "" || pyIsSpace t)) := by
  induction lines with
  | nil => intro ln; rfl
  | cons l rest ih =>
    intro ln
    simp only [load_vocab_aux, List.map_cons, List.filter_cons]
    by_cases hb : (pyRstripNewline l = "" || pyIsSpace (pyRstripNewline l)) = true
    · simp [hb, ih]
    · by_cases hw : (pyRstripNewline l).data.any isPySpace = true <;>
        simp [hb, hw, ih]

theorem load_vocab_aux_counts (lines : List String) :
    ∀ ln, (load_vocab_aux ln lines).vocab.length
        + (load_vocab_aux ln lines).skipped.length = lines.length := by
  induction lines with
  | nil => intro ln; rfl
  | cons l rest ih =>
    intro ln
    simp only [load_vocab_aux]
    have h := ih (ln + 1)
    by_cases hb : (pyRstripNewline l = "" || pyIsSpace (pyRstripNewline l)) = true
    · simp [hb]
      omega
    · by_cases hw : (pyRstripNewline l).data.any isPySpace = true <;>
        · simp [hb, hw]
          omega

/-- C6: `load_vocab` yields one token per non-blank line, trailing newlines
stripped, in file order; skipped blank lines are exactly the complement of
the returned tokens (so the returned count excludes them), and a non-blank
line is always retained even when it contains interior whitespace. -/
theorem load_vocab_correct (lines : List String) :
    load_vocab lines =
      (lines.map pyRstripNewline).filter (fun t => !(t = "" || pyIsSpace t)) ∧
    (load_vocab lines).length + (load_vocab_full lines).skipped.length
      = lines.length ∧
    ∀ l ∈ lines, (pyRstripNewline l = "" || pyIsSpace (pyRstripNewline l)) ≠ true →
      pyRstripNewline l ∈ load_vocab lines := by
  have hv := load_vocab_aux_vocab lines 1
  refine ⟨hv, load_vocab_aux_counts lines 1, ?_⟩
  intro l hl hcond
  show pyRstripNewline l ∈ (load_vocab_full lines).vocab
  unfold load_vocab_full
  rw [hv]
  refine List.mem_filter.mpr ⟨List.mem_map_of_mem pyRstripNewline hl, ?_⟩
  simpa using hcond

/-- Witness for C6: a non-blank line with interior whitespace is retained. -/
theorem load_vocab_correct_witness :
    pyRstripNewline "b c\n" ∈ load_vocab ["b c\n", "\n"] :=
  (load_vocab_correct ["b c\n", "\n"]).2.2 "b c\n" (by decide) (by decide)

/-! ## Properties of sampling -/

/-- C7: `max_sample` never fails, returns `min(len(population), k)` elements
all drawn from the population, and returns the whole population when it has
at most `k` elements; the random source is the shuffled copy of the
population that `random.sample` draws from. -/
theorem max_sample_safe (pop shuffled : List String) (k : Nat)
    (hp : shuffled.Perm pop) :
    ∃ s, max_sample shuffled k = some s ∧ s.length = min pop.length k ∧
      (∀ t ∈ s, t ∈ pop) ∧ (pop.length ≤ k → s.Perm pop) := by
  have hlen : shuffled.length = pop.length := hp.length_eq
  refine ⟨shuffled.take (min shuffled.length k), ?_, ?_, ?_, ?_⟩
  · unfold max_sample pySample
    rw [if_pos (Nat.min_le_left _ _)]
  · rw [List.length_take]
    omega
  · intro t ht
    exact hp.subset ((List.take_sublist _ _).subset ht)
  · intro hk
    have hmin : min shuffled.length k = shuffled.length := by omega
    rw [hmin, List.take_length]
    exact hp

/-- Witness for C7 with a concrete two-element population. -/
theorem max_sample_safe_witness :
    ∃ s, max_sample ["b", "a"] 10 = some s ∧
      s.length = min (["a", "b"] : List String).length 10 ∧
      (∀ t ∈ s, t ∈ (["a", "b"] : List String)) ∧
      ((["a", "b"] : List String).length ≤ 10 → s.Perm ["a", "b"]) :=
  max_sample_safe ["a", "b"] ["b", "a"] 10 (by decide)

/-! ## Properties of the overlap summary -/

theorem toFinset_card_ne_zero {l : List String} (h : l ≠ []) :
    l.toFinset.card ≠ 0 := by
  intro hc
  exact h ((List.toFinset_eq_empty_iff l).mp (Finset.card_eq_zero.mp hc))

/-- C1: on two non-empty vocabularies `compare` reaches the ratio
computation, producing the coverage ratios of the deduplicated sets, both
in the interval [0,1]; on an empty vocabulary the division fails. -/
theorem compare_coverage (l1 l2 : List String) :
    (l1 ≠ [] → l2 ≠ [] → ∃ s, compareStats l1 l2 = some s ∧
      s.size1 = l1.toFinset.card ∧ s.size2 = l2.toFinset.card ∧
      s.overlap = (l1.toFinset ∩ l2.toFinset).card ∧
      s.cov1 = (s.overlap : ℚ) / (s.size1 : ℚ) ∧
      s.cov2 = (s.overlap : ℚ) / (s.size2 : ℚ) ∧
      0 ≤ s.cov1 ∧ s.cov1 ≤ 1 ∧ 0 ≤ s.cov2 ∧ s.cov2 ≤ 1) ∧
    ((l1 = [] ∨ l2 = []) → compareStats l1 l2 = none) := by
  constructor
  · intro h1 h2
    have hc1 := toFinset_card_ne_zero h1
    have hc2 := toFinset_card_ne_zero h2
    have hp1 : (0 : ℚ) < (l1.toFinset.card : ℚ) := by
      exact_mod_cast Nat.pos_of_ne_zero hc1
    have hp2 : (0 : ℚ) < (l2.toFinset.card : ℚ) := by
      exact_mod_cast Nat.pos_of_ne_zero hc2
    have hs : compareStats l1 l2 = some ⟨l1.toFinset.card, l2.toFinset.card,
        (l1.toFinset ∩ l2.toFinset).card,
        ((l1.toFinset ∩ l2.toFinset).card : ℚ) / (l1.toFinset.card : ℚ),
        ((l1.toFinset ∩ l2.toFinset).card : ℚ) / (l2.toFinset.card : ℚ)⟩ := by
      simp only [compareStats]
      rw [if_neg hc1, if_neg hc2]
    refine ⟨_, hs, rfl, rfl, rfl, rfl, rfl, ?_, ?_, ?_, ?_⟩
    · exact div_nonneg (Nat.cast_nonneg _) (Nat.cast_nonneg _)
    · refine (div_le_one hp1).mpr ?_
      exact_mod_cast Finset.card_le_card Finset.inter_subset_left
    · exact div_nonneg (Nat.cast_nonneg _) (Nat.cast_nonneg _)
    · refine (div_le_one hp2).mpr ?_
      exact_mod_cast Finset.card_le_card Finset.inter_subset_right
  · rintro (h | h) <;> subst h <;> simp [compareStats, ite_self]

/-- Witness for C1 with two concrete overlapping vocabularies. -/
theorem compare_coverage_witness :
    ∃ s, compareStats ["a", "b"] ["b", "c"] = some s ∧
      s.size1 = (["a", "b"] : List String).toFinset.card ∧
      s.size2 = (["b", "c"] : List String).toFinset.card ∧
      s.overlap = ((["a", "b"] : List String).toFinset
        ∩ (["b", "c"] : List String).toFinset).card ∧
      s.cov1 = (s.overlap : ℚ) / (s.size1 : ℚ) ∧
      s.cov2 = (s.overlap : ℚ) / (s.size2 : ℚ) ∧
      0 ≤ s.cov1 ∧ s.cov1 ≤ 1 ∧ 0 ≤ s.cov2 ∧ s.cov2 ≤ 1 :=
  (compare_coverage ["a", "b"] ["b", "c"]).1 (by decide) (by decide)

/-- C10: every reported number is a function of the deduplicated sets, so
appending duplicates of tokens already present changes nothing. -/
theorem compare_dedup_invariant (l1 l2 d1 d2 : List String)
    (h1 : ∀ t ∈ d1, t ∈ l1) (h2 : ∀ t ∈ d2, t ∈ l2) :
    compareStats (l1 ++ d1) (l2 ++ d2) = compareStats l1 l2 := by
  have e1 : (l1 ++ d1).toFinset = l1.toFinset := by
    rw [List.toFinset_append]
    refine Finset.union_eq_left.mpr ?_
    intro t ht
    exact List.mem_toFinset.mpr (h1 t (List.mem_toFinset.mp ht))
  have e2 : (l2 ++ d2).toFinset = l2.toFinset := by
    rw [List.toFinset_append]
    refine Finset.union_eq_left.mpr ?_
    intro t ht
    exact List.mem_toFinset.mpr (h2 t (List.mem_toFinset.mp ht))
  simp only [compareStats, e1, e2]

/-- Witness for C10: duplicated tokens leave the statistics unchanged. -/
theorem compare_dedup_invariant_witness :
    compareStats (["a", "b"] ++ ["a"]) (["b"] ++ ["b", "b"])
      = compareStats ["a", "b"] ["b"] :=
  compare_dedup_invariant ["a", "b"] ["b"] ["a"] ["b", "b"]
    (by decide) (by decide)

/-! ## Properties of the driver -/

theorem combinations2_length {α : Type} (l : List α) :
    (combinations2 l).length = l.length.choose 2 := by
  induction l with
  | nil => rfl
  | cons x xs ih =>
    simp only [combinations2, List.length_append, List.length_map, ih,
      List.length_cons]
    rw [Nat.choose_succ_succ, Nat.choose_one_right]

theorem odKeys_nodup_eq (paths : List String) (h : paths.Nodup) :
    odKeys paths = paths := by
  induction paths with
  | nil => rfl
  | cons p rest ih =>
    have hp : p ∉ rest := (List.nodup_cons.mp h).1
    have hrest := (List.nodup_cons.mp h).2
    simp only [odKeys, ih hrest]
    congr 1
    refine List.filter_eq_self.mpr ?_
    intro a ha
    simp only [ne_eq, decide_eq_true_eq]
    exact fun e => hp (e ▸ ha)

/-- C4 (amended): the driver compares every unordered pair of DISTINCT
input paths once, in generation order; with `M` distinct paths that is
`M(M-1)/2` comparisons, which equals `N(N-1)/2` when all `N` paths differ. -/
theorem pairwise_comparisons (paths : List String) :
    (mainPairs paths).length
        = (odKeys paths).length * ((odKeys paths).length - 1) / 2 ∧
    (paths.Nodup → mainPairs paths = combinations2 paths ∧
      (mainPairs paths).length = paths.length * (paths.length - 1) / 2) := by
  constructor
  · unfold mainPairs
    rw [combinations2_length, Nat.choose_two_right]
  · intro h
    unfold mainPairs
    rw [odKeys_nodup_eq paths h]
    exact ⟨rfl, by rw [combinations2_length, Nat.choose_two_right]⟩

/-- C4 counterexample: two identical paths are two input paths (N = 2), yet
the path-keyed dictionary collapses them and zero comparisons run instead
of N·(N-1)/2 = 1. -/
theorem pairwise_comparisons_cex :
    (mainPairs ["a", "a"]).length = 0 ∧ (2 * (2 - 1) / 2 : Nat) = 1 := by
  decide

/-- Witness for C4 at three distinct paths. -/
theorem pairwise_comparisons_witness :
    mainPairs ["a", "b", "c"] = combinations2 ["a", "b", "c"] ∧
    (mainPairs ["a", "b", "c"]).length
      = (["a", "b", "c"] : List String).length
        * ((["a", "b", "c"] : List String).length - 1) / 2 :=
  (pairwise_comparisons ["a", "b", "c"]).2 (by decide)

/-- C3 counterexample: with zero vocabulary paths (fewer than two) the
argument parser rejects the command line and the process exits with
code 2, not 1. -/
theorem main_exit_cex : mainExit (fun _ => []) [] = 2 ∧ (2 : Nat) ≠ 1 := by
  decide

/-- C3 (amended): zero paths exit with the parser's code 2; exactly one
path exits with code 1 from `main`'s own check, with no comparison pairs;
two or more paths whose comparisons all succeed exit with code 0. -/
theorem main_exit_codes (fs : String → List String) (paths : List String) :
    (paths = [] → mainExit fs paths = 2) ∧
    (paths ≠ [] → paths.length < 2 →
      mainExit fs paths = 1 ∧ mainPairs paths = []) ∧
    (2 ≤ paths.length →
      (mainPairs paths).all (fun pr =>
          (compareStats (mainVocab fs pr.1) (mainVocab fs pr.2)).isSome) = true →
      mainExit fs paths = 0) := by
  refine ⟨?_, ?_, ?_⟩
  · intro h
    subst h
    rfl
  · intro hne hlt
    match paths, hne with
    | p :: rest, _ =>
      match rest, hlt with
      | [], _ => exact ⟨rfl, rfl⟩
      | q :: r, hlt => simp [List.length_cons] at hlt; omega
  · intro hge hall
    unfold mainExit
    rw [if_neg (by omega), if_neg (by omega), if_pos hall]

/-- Witness for C3: two paths mapping to a one-token file exit cleanly. -/
theorem main_exit_codes_witness :
    mainExit (fun _ => ["a"]) ["p", "q"] = 0 :=
  (main_exit_codes (fun _ => ["a"]) ["p", "q"]).2.2 (by decide) (by decide)

/-! ## Properties of the reference counter -/

theorem addCounts_apply (ts : List String) :
    ∀ (c : String → Nat) (t : String),
      addCounts c ts t = c t + (ts.filter keptTok).count t := by
  induction ts with
  | nil =>
    intro c t
    simp [addCounts]
  | cons u ts ih =>
    intro c t
    have hstep : addCounts c (u :: ts)
        = addCounts (if keptTok u then counterInc c u else c) ts := rfl
    rw [hstep, ih]
    by_cases hk : keptTok u = true
    · by_cases ht : t = u
      · subst ht
        simp [hk, counterInc, List.filter_cons, List.count_cons]
        omega
      · have ht2 : ¬(u = t) := fun e => ht e.symm
        simp [hk, ht, ht2, counterInc, List.filter_cons, List.count_cons]
    · simp [hk, List.filter_cons]

theorem basictoken_counts_aux (tok : String → List String) (lines : List String) :
    ∀ (c : String → Nat) (t : String),
      (lines.foldl (fun c l => addCounts c (tok (pyRstrip l))) c) t
        = c t + (keptTokens tok lines).count t := by
  induction lines with
  | nil =>
    intro c t
    simp [keptTokens]
  | cons l rest ih =>
    intro c t
    have hstep : (l :: rest).foldl (fun c l => addCounts c (tok (pyRstrip l))) c
        = rest.foldl (fun c l => addCounts c (tok (pyRstrip l)))
            (addCounts c (tok (pyRstrip l))) := rfl
    rw [hstep, ih, addCounts_apply]
    simp [keptTokens, List.count_append]
    omega

/-- C8: the reference counter's table has as keys exactly the kept
basic-tokenization outputs of the text (tokens that are empty or pure
whitespace are excluded), each key's count is its number of occurrences,
and the accumulation is invariant under permuting the token occurrences. -/
theorem basictoken_counts_correct (tok : String → List String)
    (lines : List String) :
    (∀ t, basictoken_counts tok lines t = (keptTokens tok lines).count t) ∧
    (∀ t, basictoken_counts tok lines t ≠ 0 ↔ t ∈ keptTokens tok lines) ∧
    (∀ t ∈ keptTokens tok lines, keptTok t = true) ∧
    (∀ (c : String → Nat) (ts1 ts2 : List String), ts1.Perm ts2 →
      ∀ t, addCounts c ts1 t = addCounts c ts2 t) := by
  have happ : ∀ t, basictoken_counts tok lines t
      = (keptTokens tok lines).count t := by
    intro t
    have h := basictoken_counts_aux tok lines (fun _ => 0) t
    simpa [basictoken_counts] using h
  refine ⟨happ, ?_, ?_, ?_⟩
  · intro t
    rw [happ t]
    constructor
    · intro h
      exact List.count_pos_iff.mp (Nat.pos_of_ne_zero h)
    · intro h
      exact Nat.pos_iff_ne_zero.mp (List.count_pos_iff.mpr h)
  · intro t ht
    simp only [keptTokens, List.mem_flatten] at ht
    obtain ⟨l', hl', hmem⟩ := ht
    simp only [List.mem_map] at hl'
    obtain ⟨l0, _, rfl⟩ := hl'
    exact (List.mem_filter.mp hmem).2
  · intro c ts1 ts2 hperm t
    rw [addCounts_apply, addCounts_apply,
      (List.Perm.filter keptTok hperm).count_eq]

/-- Witness for C8: a transposed token stream yields the same count. -/
theorem basictoken_counts_correct_witness :
    addCounts (fun _ => 0) ["b", "a"] "a" = addCounts (fun _ => 0) ["a", "b"] "a" :=
  (basictoken_counts_correct (fun l => [l]) []).2.2.2 (fun _ => 0)
    ["b", "a"] ["a", "b"] (by decide) "a"

/-! ## Properties of the ranked difference report -/

theorem emitFlag_spec (mine other : Finset String) (t : String) (c : Nat)
    (h : emitFlag mine other t c = true) :
    t ∈ mine ∧ t ∉ other ∧ c < max_examples := by
  simp only [emitFlag, Bool.and_eq_true, decide_eq_true_eq, Bool.not_eq_true',
    decide_eq_false_iff_not] at h
  exact ⟨h.1.1, h.1.2, h.2⟩

theorem insertByCount_perm (a : String × Nat) (l : List (String × Nat)) :
    (insertByCount a l).Perm (a :: l) := by
  induction l with
  | nil => exact List.Perm.refl _
  | cons b t ih =>
    simp only [insertByCount]
    split
    · exact (ih.cons b).trans (List.Perm.swap a b t)
    · exact List.Perm.refl _

theorem sortByCountDesc_perm (l : List (String × Nat)) :
    (sortByCountDesc l).Perm l := by
  induction l with
  | nil => exact List.Perm.refl _
  | cons a t ih =>
    exact (insertByCount_perm a (sortByCountDesc t)).trans (ih.cons a)

theorem rankedLoop_props (v1 v2 : Finset String) (l : List (String × Nat)) :
    ∀ i c1 c2,
      ((rankedLoop v1 v2 l i c1 c2).1.map Prod.fst).Sublist (l.map Prod.fst) ∧
      ((rankedLoop v1 v2 l i c1 c2).2.map Prod.fst).Sublist (l.map Prod.fst) ∧
      (rankedLoop v1 v2 l i c1 c2).1.length ≤ max_examples - c1 ∧
      (rankedLoop v1 v2 l i c1 c2).2.length ≤ max_examples - c2 ∧
      (∀ p ∈ (rankedLoop v1 v2 l i c1 c2).1, p.1 ∈ v1 ∧ p.1 ∉ v2) ∧
      (∀ p ∈ (rankedLoop v1 v2 l i c1 c2).2, p.1 ∈ v2 ∧ p.1 ∉ v1) := by
  induction l with
  | nil =>
    intro i c1 c2
    simp [rankedLoop]
  | cons p rest ih =>
    intro i c1 c2
    obtain ⟨t, n⟩ := p
    simp only [rankedLoop]
    cases he1 : emitFlag v1 v2 t c1 <;> cases he2 : emitFlag v2 v1 t c2 <;>
      simp only [he1, he2, if_true, if_false, ite_true, ite_false,
        Bool.false_eq_true, List.map_cons] <;>
      split <;>
      rename_i hbr
    case false.false.isTrue =>
      simp
    case false.false.isFalse =>
      obtain ⟨ihs1, ihs2, ihl1, ihl2, ihm1, ihm2⟩ := ih (i + 1) c1 c2
      exact ⟨ihs1.cons _, ihs2.cons _, ihl1, ihl2, ihm1, ihm2⟩
    case false.true.isTrue =>
      obtain ⟨_, _, hc2⟩ := emitFlag_spec v2 v1 t c2 he2
      refine ⟨by simp, ?_, by simp, ?_, by simp, ?_⟩
      · simp
      · simp
        omega
      · intro q hq
        simp at hq
        subst hq
        obtain ⟨h1, h2, _⟩ := emitFlag_spec v2 v1 t c2 he2
        exact ⟨h1, h2⟩
    case false.true.isFalse =>
      obtain ⟨_, _, hc2⟩ := emitFlag_spec v2 v1 t c2 he2
      obtain ⟨ihs1, ihs2, ihl1, ihl2, ihm1, ihm2⟩ := ih (i + 1) c1 (c2 + 1)
      refine ⟨ihs1.cons _, ihs2.cons₂ _, ihl1, ?_, ihm1, ?_⟩
      · simp only [List.length_cons]
        omega
      · intro q hq
        rcases List.mem_cons.mp hq with hq | hq
        · subst hq
          obtain ⟨h1, h2, _⟩ := emitFlag_spec v2 v1 t c2 he2
          exact ⟨h1, h2⟩
        · exact ihm2 q hq
    case true.false.isTrue =>
      obtain ⟨_, _, hc1⟩ := emitFlag_spec v1 v2 t c1 he1
      refine ⟨?_, by simp, ?_, by simp, ?_, by simp⟩
      · simp
      · simp
        omega
      · intro q hq
        simp at hq
        subst hq
        obtain ⟨h1, h2, _⟩ := emitFlag_spec v1 v2 t c1 he1
        exact ⟨h1, h2⟩
    case true.false.isFalse =>
      obtain ⟨_, _, hc1⟩ := emitFlag_spec v1 v2 t c1 he1
      obtain ⟨ihs1, ihs2, ihl1, ihl2, ihm1, ihm2⟩ := ih (i + 1) (c1 + 1) c2
      refine ⟨ihs1.cons₂ _, ihs2.cons _, ?_, ihl2, ?_, ihm2⟩
      · simp only [List.length_cons]
        omega
      · intro q hq
        rcases List.mem_cons.mp hq with hq | hq
        · subst hq
          obtain ⟨h1, h2, _⟩ := emitFlag_spec v1 v2 t c1 he1
          exact ⟨h1, h2⟩
        · exact ihm1 q hq
    case true.true.isTrue =>
      obtain ⟨_, _, hc1⟩ := emitFlag_spec v1 v2 t c1 he1
      obtain ⟨_, _, hc2⟩ := emitFlag_spec v2 v1 t c2 he2
      refine ⟨?_, ?_, ?_, ?_, ?_, ?_⟩
      · simp
      · simp
      · simp
        omega
      · simp
        omega
      · intro q hq
        simp at hq
        subst hq
        obtain ⟨h1, h2, _⟩ := emitFlag_spec v1 v2 t c1 he1
        exact ⟨h1, h2⟩
      · intro q hq
        simp at hq
        subst hq
        obtain ⟨h1, h2, _⟩ := emitFlag_spec v2 v1 t c2 he2
        exact ⟨h1, h2⟩
    case true.true.isFalse =>
      obtain ⟨_, _, hc1⟩ := emitFlag_spec v1 v2 t c1 he1
      obtain ⟨_, _, hc2⟩ := emitFlag_spec v2 v1 t c2 he2
      obtain ⟨ihs1, ihs2, ihl1, ihl2, ihm1, ihm2⟩ := ih (i + 1) (c1 + 1) (c2 + 1)
      refine ⟨ihs1.cons₂ _, ihs2.cons₂ _, ?_, ?_, ?_, ?_⟩
      · simp only [List.length_cons]
        omega
      · simp only [List.length_cons]
        omega
      · intro q hq
        rcases List.mem_cons.mp hq with hq | hq
        · subst hq
          obtain ⟨h1, h2, _⟩ := emitFlag_spec v1 v2 t c1 he1
          exact ⟨h1, h2⟩
        · exact ihm1 q hq
      · intro q hq
        rcases List.mem_cons.mp hq with hq | hq
        · subst hq
          obtain ⟨h1, h2, _⟩ := emitFlag_spec v2 v1 t c2 he2
          exact ⟨h1, h2⟩
        · exact ihm2 q hq

/-- C2: in ranked mode each side emits at most 10 tokens; every emitted
token is a key of the frequency table (tokens absent from the table are
never emitted), lies in exactly the vocabulary of its side and not in the
other, and no token is emitted twice on the same side. -/
theorem ranked_mode_sound (counts : List (String × Nat)) (l1 l2 : List String)
    (hnd : (counts.map Prod.fst).Nodup) :
    (rankedDiff counts l1 l2).1.length ≤ 10 ∧
    (rankedDiff counts l1 l2).2.length ≤ 10 ∧
    (∀ p ∈ (rankedDiff counts l1 l2).1,
      p.1 ∈ counts.map Prod.fst ∧ p.1 ∈ l1 ∧ p.1 ∉ l2) ∧
    (∀ p ∈ (rankedDiff counts l1 l2).2,
      p.1 ∈ counts.map Prod.fst ∧ p.1 ∈ l2 ∧ p.1 ∉ l1) ∧
    ((rankedDiff counts l1 l2).1.map Prod.fst).Nodup ∧
    ((rankedDiff counts l1 l2).2.map Prod.fst).Nodup := by
  have hperm : ((sortByCountDesc counts).map Prod.fst).Perm (counts.map Prod.fst) :=
    (sortByCountDesc_perm counts).map Prod.fst
  obtain ⟨hs1, hs2, hl1, hl2, hm1, hm2⟩ :=
    rankedLoop_props l1.toFinset l2.toFinset (sortByCountDesc counts) 1 0 0
  have hsnd : ((sortByCountDesc counts).map Prod.fst).Nodup :=
    hperm.nodup_iff.mpr hnd
  unfold rankedDiff
  refine ⟨by simpa using hl1, by simpa using hl2, ?_, ?_, ?_, ?_⟩
  · intro p hp
    obtain ⟨hin, hout⟩ := hm1 p hp
    refine ⟨hperm.subset (hs1.subset (List.mem_map_of_mem Prod.fst hp)), ?_, ?_⟩
    · exact List.mem_toFinset.mp hin
    · exact fun hc => hout (List.mem_toFinset.mpr hc)
  · intro p hp
    obtain ⟨hin, hout⟩ := hm2 p hp
    refine ⟨hperm.subset (hs2.subset (List.mem_map_of_mem Prod.fst hp)), ?_, ?_⟩
    · exact List.mem_toFinset.mp hin
    · exact fun hc => hout (List.mem_toFinset.mpr hc)
  · exact List.Nodup.sublist hs1 hsnd
  · exact List.Nodup.sublist hs2 hsnd

/-- Witness for C2 on the spec's reference-text example. -/
theorem ranked_mode_sound_witness :
    (rankedDiff [("the", 2), ("cat", 1)] ["the", "x"] ["cat", "x"]).1.length ≤ 10 ∧
    (rankedDiff [("the", 2), ("cat", 1)] ["the", "x"] ["cat", "x"]).2.length ≤ 10 ∧
    (∀ p ∈ (rankedDiff [("the", 2), ("cat", 1)] ["the", "x"] ["cat", "x"]).1,
      p.1 ∈ ([("the", 2), ("cat", 1)] : List (String × Nat)).map Prod.fst ∧
        p.1 ∈ (["the", "x"] : List String) ∧ p.1 ∉ (["cat", "x"] : List String)) ∧
    (∀ p ∈ (rankedDiff [("the", 2), ("cat", 1)] ["the", "x"] ["cat", "x"]).2,
      p.1 ∈ ([("the", 2), ("cat", 1)] : List (String × Nat)).map Prod.fst ∧
        p.1 ∈ (["cat", "x"] : List String) ∧ p.1 ∉ (["the", "x"] : List String)) ∧
    ((rankedDiff [("the", 2), ("cat", 1)] ["the", "x"] ["cat", "x"]).1.map
      Prod.fst).Nodup ∧
    ((rankedDiff [("the", 2), ("cat", 1)] ["the", "x"] ["cat", "x"]).2.map
      Prod.fst).Nodup :=
  ranked_mode_sound [("the", 2), ("cat", 1)] ["the", "x"] ["cat", "x"] (by decide)
